import Mathlib

/-!
Verification development for the pipelens hierarchical execution-tracing
library (Python). The repository ships the test suites and the type
declarations, while the bodies of `step.py` (class `Step`), the `Pipeline`
class and `transport/http_transport.py` are not present; those parts are
modelled here from the specification, constrained by the repository's own
test suites wherever the tests pin the behaviour down.

Conventions of the embedding:
- JSON-serialisable Python values are `Value`; a reference to a live `Step`
  object (Python lets user functions return the step itself) is `Value.vstepRef`
  carrying the step's key.
- `now()` is a monotone counter: every call to the clock returns the current
  tick and advances it by one, so `startTs <= endTs` holds by construction.
- User functions passed to `step`/`track` are sequential programs `Prog`;
  awaiting a sub-step is `Prog.stepCall` whose continuation receives the
  sub-step's return value, and an error raised inside a sub-step aborts the
  rest of the caller's program, exactly as an uncaught Python exception would.
- Events are collected in one global list, in emission order; this is what a
  listener registered on the root observes, since every event bubbles to the
  root with unchanged arguments.
-/

/-- A JSON-like runtime value, plus a reference to a step object
(identified by its key) since Python user functions may return the step. -/
inductive Value where
  | vnull : Value
  | vstr : String → Value
  | vint : Int → Value
  | vbool : Bool → Value
  | vlist : List Value → Value
  | vdict : List (String × Value) → Value
  | vstepRef : String → Value

/-- The `{name, message}` pair captured from a raised exception. -/
structure ErrorInfo where
  name : String
  message : String
deriving DecidableEq, Repr

/-- Modelled from the spec: `TimeMeta` of `step.py` —
`{startTs, endTs, timeUsageMs}`, all nullable integer milliseconds. -/
structure TimeMeta where
  startTs : Option Nat := none
  endTs : Option Nat := none
  timeUsageMs : Option Nat := none
deriving DecidableEq, Repr

/-- Modelled from the spec: `StepMeta` of `step.py` — name, dot-joined key,
timing, insertion-ordered records, optional result and optional error. -/
structure StepMeta where
  name : String
  key : String
  time : TimeMeta := {}
  records : List (String × Value) := []
  result : Option Value := none
  error : Option ErrorInfo := none

/-- The execution tree: a step's metadata together with its ordered,
owned children. -/
inductive StepTree where
  | node : StepMeta → List StepTree → StepTree

def StepTree.meta : StepTree → StepMeta
  | .node m _ => m

def StepTree.children : StepTree → List StepTree
  | .node _ cs => cs

def StepTree.withMeta : StepTree → StepMeta → StepTree
  | .node _ cs, m => .node m cs

def StepTree.addChild : StepTree → StepTree → StepTree
  | .node m cs, c => .node m (cs ++ [c])

mutual
/-- Number of nodes of the tree (the step itself plus all descendants). -/
def StepTree.size : StepTree → Nat
  | .node _ cs => 1 + StepTree.sizeList cs

/-- Total number of nodes of a forest. -/
def StepTree.sizeList : List StepTree → Nat
  | [] => 0
  | c :: cs => c.size + StepTree.sizeList cs
end

mutual
/-- Modelled from the spec: `Step.output_flattened` of `step.py` —
pre-order traversal: self first, then each child's flattening in insertion
order. -/
def StepTree.outputFlattened : StepTree → List StepMeta
  | .node m cs => m :: StepTree.flattenList cs

/-- Flattening of a forest, in order. -/
def StepTree.flattenList : List StepTree → List StepMeta
  | [] => []
  | c :: cs => c.outputFlattened ++ StepTree.flattenList cs
end

/-- Insert-or-overwrite for the insertion-order-preserving records map:
a later write to an existing key overwrites in place, a new key is appended. -/
def insertRecord : List (String × Value) → String → Value → List (String × Value)
  | [], k, v => [(k, v)]
  | (k', v') :: rest, k, v =>
      if k' = k then (k, v) :: rest else (k', v') :: insertRecord rest k v

/-- The five event names, with their payloads; the first component is always
the originating step's key. -/
inductive Event where
  | stepStart : String → Event
  | stepSuccess : String → Value → Event
  | stepError : String → ErrorInfo → Event
  | stepRecord : String → String → Value → Event
  | stepComplete : String → Event

/-- A sequential user function, as passed to `step`/`track`.
`stepCall name body k` awaits `self.step(name, body)` and continues with `k`
applied to the sub-step's return value; an error inside `body` propagates
(there is no handler, matching the repository's tests). `retSelf` returns the
step object the program is running on, modelling `return st`. -/
inductive Prog where
  | ret : Value → Prog
  | retSelf : Prog
  | fail : ErrorInfo → Prog
  | record : String → Value → Prog → Prog
  | stepCall : String → Prog → (Value → Prog) → Prog

/-- Result of running a program on a step: the returned value or the
re-raised error, the updated step subtree, the advanced clock, and the
events emitted so far. -/
structure RunOut where
  result : Except ErrorInfo Value
  tree : StepTree
  clock : Nat
  events : List Event

/-- Close a `TimeMeta` at tick `c`: set `endTs` and `timeUsageMs`. -/
def closeTime (t : TimeMeta) (c : Nat) : TimeMeta :=
  { t with endTs := some c, timeUsageMs := some (c - t.startTs.getD 0) }

/-- Fresh child step created on entry to `step(name, fn)`:
key is the parent's key, a dot, and the local name; `startTs` is now. -/
def newChild (parentKey name : String) (c : Nat) : StepTree :=
  .node { name := name, key := parentKey ++ "." ++ name,
          time := { startTs := some c } } []

/-- Modelled from the spec: the body of `Step.step` of `step.py`, run of the
user function `fn` on step `s` starting at tick `clock` with event log `ev`.
`step(name, fn)` creates a child, records `startTs`, emits `step-start`,
invokes `fn(child)`; on normal return stores `result`, closes the timing,
emits `step-success` then `step-complete` and hands the value to the caller;
on failure stores the error, closes the timing identically, emits
`step-error` then `step-complete` and re-raises. The child is appended to
`children` in entry order and is kept on failure. -/
def runProg : Prog → StepTree → Nat → List Event → RunOut
  | .ret v, s, clock, ev => ⟨.ok v, s, clock, ev⟩
  | .retSelf, s, clock, ev => ⟨.ok (.vstepRef s.meta.key), s, clock, ev⟩
  | .fail e, s, clock, ev => ⟨.error e, s, clock, ev⟩
  | .record k v rest, s, clock, ev =>
      runProg rest
        (s.withMeta { s.meta with records := insertRecord s.meta.records k v })
        clock (ev ++ [.stepRecord s.meta.key k v])
  | .stepCall name body k, s, clock, ev =>
      let ck := s.meta.key ++ "." ++ name
      let o := runProg body (newChild s.meta.key name clock) (clock + 1)
        (ev ++ [.stepStart ck])
      match o.result with
      | .ok v =>
          let child := o.tree.withMeta
            { o.tree.meta with
              result := some v
              time := closeTime o.tree.meta.time o.clock }
          runProg (k v) (s.addChild child) (o.clock + 1)
            (o.events ++ [.stepSuccess ck v, .stepComplete ck])
      | .error e =>
          let child := o.tree.withMeta
            { o.tree.meta with
              error := some e
              time := closeTime o.tree.meta.time o.clock }
          ⟨.error e, s.addChild child, o.clock + 1,
            o.events ++ [.stepError ck e, .stepComplete ck]⟩

/-- Modelled from the spec: the `Step` constructor of `step.py` —
`Step(name, key=...)`: the local key defaults to the name and may be
overridden at construction; a root step's key is its local key. -/
def Step.mkRoot (name : String) (okey : Option String) : StepTree :=
  .node { name := name, key := okey.getD name } []

/-- Modelled from the spec: the part of `Step.track` of `step.py` up to the
user function's return — records the root's own `startTs`, emits its
`step-start` and runs `fn(self)` from the next tick. -/
def Step.trackInner (s : StepTree) (fn : Prog) (clock : Nat) : RunOut :=
  runProg fn
    (s.withMeta { s.meta with time := { s.meta.time with startTs := some clock } })
    (clock + 1) [.stepStart s.meta.key]

/-- Modelled from the spec: `Step.track` of `step.py` — behaves like the body
of `step` applied to `self`: after `Step.trackInner` it stores the result or
error on `self`, closes its timing identically to `step`, and emits its
`step-success`/`step-error` then `step-complete`. Per the repository's tests
(`test_run_return_result`, `test_track_steps`) the value handed back to the
caller is the user function's return value; on failure the error is
re-raised. -/
def Step.track (s : StepTree) (fn : Prog) (clock : Nat) : RunOut :=
  let o := Step.trackInner s fn clock
  match o.result with
  | .ok v =>
      ⟨.ok v,
        o.tree.withMeta
          { o.tree.meta with
            result := some v
            time := closeTime o.tree.meta.time o.clock },
        o.clock + 1,
        o.events ++ [.stepSuccess s.meta.key v, .stepComplete s.meta.key]⟩
  | .error e =>
      ⟨.error e,
        o.tree.withMeta
          { o.tree.meta with
            error := some e
            time := closeTime o.tree.meta.time o.clock },
        o.clock + 1,
        o.events ++ [.stepError s.meta.key e, .stepComplete s.meta.key]⟩

/-- The `auto_save` configuration: `off`, `finish`, or `real_time`. -/
inductive AutoSave where
  | off : AutoSave
  | finish : AutoSave
  | realTime : AutoSave
deriving DecidableEq, Repr

/-- The recognised Pipeline options bag: optional explicit run id,
auto-save mode (default `off`), and an optional transport object
(transport objects are modelled by an opaque identifier). -/
structure PipelineOptions where
  runId : Option String := none
  autoSave : AutoSave := .off
  transport : Option Nat := none

/-- A Pipeline's own configuration: its name (also its key), the immutable
run id, the auto-save mode, and the transport used by auto-save. -/
structure Pipeline where
  name : String
  runId : String
  autoSave : AutoSave
  transport : Option Nat

/-- Modelled from the spec: the `Pipeline` constructor of `pipeline.py`
(absent from the sources; its test `test_auto_save_without_transport` pins
the validation). `genId` stands for the fresh UUID used when no run id is
supplied. Raising `ValueError` is modelled by returning `Except.error` with
the message the test matches on. -/
def Pipeline.create (name : String) (opts : PipelineOptions) (genId : String) :
    Except String Pipeline :=
  if opts.autoSave ≠ AutoSave.off ∧ opts.transport = none then
    .error "Transport must be provided when auto_save is enabled"
  else
    .ok { name := name
          runId := opts.runId.getD genId
          autoSave := opts.autoSave
          transport := opts.transport }

/-- `PipelineMeta` of `pipeline_types.py`: `StepMeta` extended with exactly
the log format version (default 1), the run id, and the flattened steps. -/
structure PipelineMeta extends StepMeta where
  logVersion : Int := 1
  runId : String
  steps : List StepMeta := []

/-- Modelled from the spec: `Pipeline.output_pipeline_meta` — the pipeline's
own `StepMeta` extended with `logVersion = 1`, the run id, and the flattened
pre-order `steps`. `t` is the pipeline's current step tree. -/
def Pipeline.outputPipelineMeta (p : Pipeline) (t : StepTree) : PipelineMeta :=
  { toStepMeta := t.meta
    logVersion := 1
    runId := p.runId
    steps := t.outputFlattened }

/-- One call received by a transport, with its arguments. -/
inductive TransportCall where
  | initiateRun : PipelineMeta → TransportCall
  | finishRun : PipelineMeta → String → TransportCall
  | initiateStep : String → StepMeta → TransportCall
  | finishStep : String → StepMeta → TransportCall

def TransportCall.isInitiateRun : TransportCall → Bool
  | .initiateRun _ => true
  | _ => false

def TransportCall.isFinishRun : TransportCall → Bool
  | .finishRun _ _ => true
  | _ => false

def TransportCall.isInitiateStep : TransportCall → Bool
  | .initiateStep _ _ => true
  | _ => false

def TransportCall.isFinishStep : TransportCall → Bool
  | .finishStep _ _ => true
  | _ => false

/-- Snapshot of the step with the given key, looked up in the flattened
tree (first match; keys are not guaranteed unique). -/
def lookupMeta (metas : List StepMeta) (k : String) : StepMeta :=
  (metas.find? (fun m => m.key == k)).getD { name := "", key := k }

/-- Modelled from the spec: the `real_time` listeners installed by the
`Pipeline` constructor — every `step-start(key)` triggers
`transport.initiate_step(runId, snapshot)` and every `step-complete(key)`
triggers `transport.finish_step(runId, snapshot)`, in event order. -/
def eventCalls (runId : String) (metas : List StepMeta) :
    List Event → List TransportCall
  | [] => []
  | .stepStart k :: rest =>
      .initiateStep runId (lookupMeta metas k) :: eventCalls runId metas rest
  | .stepComplete k :: rest =>
      .finishStep runId (lookupMeta metas k) :: eventCalls runId metas rest
  | _ :: rest => eventCalls runId metas rest

/-- Result of one pipeline run: the value or error from `track`, the final
step tree, the emitted events, and the transport calls in order. -/
structure PipeRunOut where
  result : Except ErrorInfo Value
  tree : StepTree
  events : List Event
  calls : List TransportCall

/-- Modelled from the spec: `Pipeline.track` of `pipeline.py` driving the
transport. The pipeline is the root step (key = name); `off` performs no
transport calls; `finish` calls `finish_run(pipelineMeta, status)` once on
completion, with the full flattened `steps` inside `pipelineMeta`;
`real_time` calls `initiate_run` on entry, forwards every `step-start` /
`step-complete` of the run (the pipeline's own included) as
`initiate_step` / `finish_step`, and calls `finish_run` with status
`completed` on success or `failed` on error, re-raising the error. -/
def Pipeline.trackRun (p : Pipeline) (fn : Prog) : PipeRunOut :=
  let root := Step.mkRoot p.name none
  let o := Step.track root fn 0
  let status := match o.result with
    | .ok _ => "completed"
    | .error _ => "failed"
  let pm := p.outputPipelineMeta o.tree
  let calls := match p.autoSave with
    | .off => []
    | .finish => [.finishRun pm status]
    | .realTime =>
        .initiateRun (p.outputPipelineMeta root) ::
          (eventCalls p.runId o.tree.outputFlattened o.events ++
            [.finishRun pm status])
  ⟨o.result, o.tree, o.events, calls⟩

/-- One event of the batched ingestion payload, as POSTed to
`api/ingestion/batch`: its `type`/`operation` tag pair together with its
arguments. -/
inductive BatchEvent where
  | pipelineStart : PipelineMeta → BatchEvent
  | pipelineFinish : PipelineMeta → String → BatchEvent
  | stepStart : String → StepMeta → BatchEvent
  | stepFinish : String → StepMeta → BatchEvent

/-- The `("type", "operation")` tag pair of a batch event, as it appears in
the JSON body. -/
def BatchEvent.tag : BatchEvent → String × String
  | .pipelineStart _ => ("pipeline", "start")
  | .pipelineFinish _ _ => ("pipeline", "finish")
  | .stepStart _ _ => ("step", "start")
  | .stepFinish _ _ => ("step", "finish")

/-- The `HttpTransportOptions` relevant to batched-mode behaviour. -/
structure HttpTransportOptions where
  batchLogs : Bool := true
  maxBatchSize : Nat := 50
  maxRetries : Nat := 3

/-- Observable state of a batched `HttpTransport`: the FIFO event cache,
the log of POST bodies sent to `api/ingestion/batch` in order, and the
batches dropped after exhausting the retries. -/
structure HttpTransportState where
  eventCache : List BatchEvent := []
  batchPosts : List (List BatchEvent) := []
  droppedBatches : List (List BatchEvent) := []

/-- Modelled from the spec: the retry loop inside `HttpTransport.flush_events`
of `http_transport.py`. `fuel` is the number of consecutive failures still
allowed (`maxRetries` at the start); `resps` is the oracle of HTTP statuses
the ingestion endpoint answers with, consumed front-first (an exhausted
oracle answers 200). Each attempt POSTs the whole batch; a status below 400
discards the batch, a failure consumes one unit of fuel and retries the same
batch unchanged; when the fuel is gone the batch is dropped — the failure is
never raised to user code. -/
def flushLoop (fuel : Nat) (batch : List BatchEvent) (resps : List Nat)
    (st : HttpTransportState) : HttpTransportState × List Nat :=
  match fuel with
  | 0 => ({ st with droppedBatches := st.droppedBatches ++ [batch] }, resps)
  | fuel' + 1 =>
      let status := resps.headD 200
      let st1 := { st with batchPosts := st.batchPosts ++ [batch] }
      if status < 400 then (st1, resps.tail)
      else flushLoop fuel' batch resps.tail st1

/-- Modelled from the spec: `HttpTransport.flush_events` — atomically takes
the current cache contents and POSTs them as one batch (retrying per
`flushLoop`); an empty cache is a no-op. -/
def flushEvents (cfg : HttpTransportOptions) (st : HttpTransportState)
    (resps : List Nat) : HttpTransportState × List Nat :=
  match st.eventCache with
  | [] => (st, resps)
  | batch => flushLoop cfg.maxRetries batch resps { st with eventCache := [] }

/-- Modelled from the spec: the shared body of the four public
`HttpTransport` operations in batched mode — append exactly one event to
the FIFO `eventCache`, then flush if the cache has reached `maxBatchSize`. -/
def addEvent (cfg : HttpTransportOptions) (st : HttpTransportState)
    (e : BatchEvent) (resps : List Nat) : HttpTransportState × List Nat :=
  let st1 := { st with eventCache := st.eventCache ++ [e] }
  if cfg.maxBatchSize ≤ st1.eventCache.length then flushEvents cfg st1 resps
  else (st1, resps)

/-- Modelled from the spec: batched `HttpTransport.initiate_run` —
caches a `("pipeline","start")` event. -/
def HttpTransport.initiateRun (cfg : HttpTransportOptions)
    (st : HttpTransportState) (meta : PipelineMeta) (resps : List Nat) :
    HttpTransportState × List Nat :=
  addEvent cfg st (.pipelineStart meta) resps

/-- Modelled from the spec: batched `HttpTransport.finish_run` —
caches a `("pipeline","finish")` event. -/
def HttpTransport.finishRun (cfg : HttpTransportOptions)
    (st : HttpTransportState) (meta : PipelineMeta) (status : String)
    (resps : List Nat) : HttpTransportState × List Nat :=
  addEvent cfg st (.pipelineFinish meta status) resps

/-- Modelled from the spec: batched `HttpTransport.initiate_step` —
caches a `("step","start")` event. -/
def HttpTransport.initiateStep (cfg : HttpTransportOptions)
    (st : HttpTransportState) (runId : String) (step : StepMeta)
    (resps : List Nat) : HttpTransportState × List Nat :=
  addEvent cfg st (.stepStart runId step) resps

/-- Modelled from the spec: batched `HttpTransport.finish_step` —
caches a `("step","finish")` event. -/
def HttpTransport.finishStep (cfg : HttpTransportOptions)
    (st : HttpTransportState) (runId : String) (step : StepMeta)
    (resps : List Nat) : HttpTransportState × List Nat :=
  addEvent cfg st (.stepFinish runId step) resps

def Event.isStart : Event → Bool
  | .stepStart _ => true
  | _ => false

def Event.isComplete : Event → Bool
  | .stepComplete _ => true
  | _ => false

mutual
/-- The key invariant of §3, as a decidable check over a whole tree: every
child's key is its parent's key, a dot, and the child's local key (children
created through `step(name, fn)` always have local key `name`). -/
def childKeysOk : StepTree → Bool
  | .node m cs => childKeysOkList m.key cs

/-- The key invariant for every tree of a forest, against parent key `pk`. -/
def childKeysOkList : String → List StepTree → Bool
  | _, [] => true
  | pk, c :: cs =>
      ((c.meta.key == pk ++ "." ++ c.meta.name) && childKeysOk c)
        && childKeysOkList pk cs
end

/-- The mock pipeline meta of the transport tests (`MOCK_PIPELINE_META`). -/
def mockPipelineMeta : PipelineMeta :=
  { name := "test-pipeline", key := "test-pipeline", runId := "test-run-id" }

/-- The mock step meta of the transport tests (`MOCK_STEP_META`). -/
def mockStepMeta : StepMeta :=
  { name := "test-step", key := "test-pipeline.test-step" }

@[simp]
theorem StepTree.meta_withMeta (t : StepTree) (m : StepMeta) :
    (t.withMeta m).meta = m := by
  cases t; rfl

@[simp]
theorem StepTree.children_withMeta (t : StepTree) (m : StepMeta) :
    (t.withMeta m).children = t.children := by
  cases t; rfl

@[simp]
theorem StepTree.meta_addChild (t c : StepTree) :
    (t.addChild c).meta = t.meta := by
  cases t; rfl

@[simp]
theorem StepTree.children_addChild (t c : StepTree) :
    (t.addChild c).children = t.children ++ [c] := by
  cases t; rfl

@[simp]
theorem StepTree.sizeList_append (xs ys : List StepTree) :
    StepTree.sizeList (xs ++ ys) = StepTree.sizeList xs + StepTree.sizeList ys := by
  induction xs with
  | nil => simp [StepTree.sizeList]
  | cons c cs ih =>
      simp only [List.cons_append, StepTree.sizeList, List.append_eq, ih]
      omega

@[simp]
theorem StepTree.size_withMeta (t : StepTree) (m : StepMeta) :
    (t.withMeta m).size = t.size := by
  cases t; rfl

@[simp]
theorem StepTree.size_addChild (t c : StepTree) :
    (t.addChild c).size = t.size + c.size := by
  cases t with
  | node m cs => simp [StepTree.addChild, StepTree.size, StepTree.sizeList]; omega

@[simp]
theorem StepTree.size_newChild (pk n : String) (c : Nat) :
    (newChild pk n c).size = 1 := by
  rfl

mutual
theorem StepTree.length_outputFlattened :
    ∀ t : StepTree, t.outputFlattened.length = t.size
  | .node m cs => by
      simp [StepTree.outputFlattened, StepTree.size,
        StepTree.length_flattenList cs]
      omega

theorem StepTree.length_flattenList :
    ∀ cs : List StepTree, (StepTree.flattenList cs).length = StepTree.sizeList cs
  | [] => by simp [StepTree.flattenList, StepTree.sizeList]
  | c :: cs => by
      simp [StepTree.flattenList, StepTree.sizeList,
        StepTree.length_outputFlattened c, StepTree.length_flattenList cs]
end

theorem StepTree.flattenList_eq (cs : List StepTree) :
    StepTree.flattenList cs = (cs.map StepTree.outputFlattened).flatten := by
  induction cs with
  | nil => simp [StepTree.flattenList]
  | cons c cs ih => simp [StepTree.flattenList, ih]

/-- `runProg` never touches the running step's own name, key, timing, result
or error; it only extends its records and its children list. -/
theorem runProg_meta_inv (p : Prog) :
    ∀ (s : StepTree) (c : Nat) (ev : List Event),
      (runProg p s c ev).tree.meta.name = s.meta.name ∧
      (runProg p s c ev).tree.meta.key = s.meta.key ∧
      (runProg p s c ev).tree.meta.time = s.meta.time ∧
      (runProg p s c ev).tree.meta.result = s.meta.result ∧
      (runProg p s c ev).tree.meta.error = s.meta.error := by
  induction p with
  | ret v => intro s c ev; simp [runProg]
  | retSelf => intro s c ev; simp [runProg]
  | fail e => intro s c ev; simp [runProg]
  | record k v rest ih =>
      intro s c ev
      simp only [runProg]
      have h := ih (s.withMeta { s.meta with records := insertRecord s.meta.records k v })
        c (ev ++ [.stepRecord s.meta.key k v])
      simp only [StepTree.meta_withMeta] at h
      exact h
  | stepCall name body k ih1 ih2 =>
      intro s c ev
      simp only [runProg]
      cases ho : (runProg body (newChild s.meta.key name c) (c + 1)
          (ev ++ [.stepStart (s.meta.key ++ "." ++ name)])).result with
      | ok v =>
          refine ⟨?_, ?_, ?_, ?_, ?_⟩
          · rw [(ih2 v _ _ _).1]; simp
          · rw [(ih2 v _ _ _).2.1]; simp
          · rw [(ih2 v _ _ _).2.2.1]; simp
          · rw [(ih2 v _ _ _).2.2.2.1]; simp
          · rw [(ih2 v _ _ _).2.2.2.2]; simp
      | error e =>
          simp

/-- Every node added to the tree by a run accounts for exactly one
`step-start` event: the number of new `step-start` events equals the number
of new nodes. -/
theorem runProg_count_start (p : Prog) :
    ∀ (s : StepTree) (c : Nat) (ev : List Event),
      (runProg p s c ev).events.countP Event.isStart + s.size
        = ev.countP Event.isStart + (runProg p s c ev).tree.size := by
  induction p with
  | ret v => intro s c ev; simp [runProg]
  | retSelf => intro s c ev; simp [runProg]
  | fail e => intro s c ev; simp [runProg]
  | record k v rest ih =>
      intro s c ev
      simp only [runProg]
      have h := ih (s.withMeta { s.meta with records := insertRecord s.meta.records k v })
        c (ev ++ [.stepRecord s.meta.key k v])
      simp [StepTree.size_withMeta, List.countP_append, List.countP_cons,
        List.countP_nil, Event.isStart] at h ⊢
      omega
  | stepCall name body k ih1 ih2 =>
      intro s c ev
      simp only [runProg]
      have h1 := ih1 (newChild s.meta.key name c) (c + 1)
        (ev ++ [Event.stepStart (s.meta.key ++ "." ++ name)])
      cases ho : (runProg body (newChild s.meta.key name c) (c + 1)
          (ev ++ [Event.stepStart (s.meta.key ++ "." ++ name)])).result with
      | ok v =>
          have h2 := ih2 v
            ((s.addChild ((runProg body (newChild s.meta.key name c) (c + 1)
              (ev ++ [Event.stepStart (s.meta.key ++ "." ++ name)])).tree.withMeta
              { (runProg body (newChild s.meta.key name c) (c + 1)
                  (ev ++ [Event.stepStart (s.meta.key ++ "." ++ name)])).tree.meta with
                result := some v
                time := closeTime (runProg body (newChild s.meta.key name c) (c + 1)
                  (ev ++ [Event.stepStart (s.meta.key ++ "." ++ name)])).tree.meta.time
                  (runProg body (newChild s.meta.key name c) (c + 1)
                    (ev ++ [Event.stepStart (s.meta.key ++ "." ++ name)])).clock })))
            ((runProg body (newChild s.meta.key name c) (c + 1)
                (ev ++ [Event.stepStart (s.meta.key ++ "." ++ name)])).clock + 1)
            ((runProg body (newChild s.meta.key name c) (c + 1)
                (ev ++ [Event.stepStart (s.meta.key ++ "." ++ name)])).events ++
              [Event.stepSuccess (s.meta.key ++ "." ++ name) v,
                Event.stepComplete (s.meta.key ++ "." ++ name)])
          simp [StepTree.size_addChild, StepTree.size_withMeta,
            StepTree.size_newChild, List.countP_append, List.countP_cons,
            List.countP_nil, Event.isStart] at h1 h2 ⊢
          omega
      | error e =>
          simp [StepTree.size_addChild, StepTree.size_withMeta,
            StepTree.size_newChild, List.countP_append, List.countP_cons,
            List.countP_nil, Event.isStart] at h1 ⊢
          omega

/-- Every node added to the tree by a run is also completed: the number of
new `step-complete` events equals the number of new nodes (a failing child
still emits its `step-complete`). -/
theorem runProg_count_complete (p : Prog) :
    ∀ (s : StepTree) (c : Nat) (ev : List Event),
      (runProg p s c ev).events.countP Event.isComplete + s.size
        = ev.countP Event.isComplete + (runProg p s c ev).tree.size := by
  induction p with
  | ret v => intro s c ev; simp [runProg]
  | retSelf => intro s c ev; simp [runProg]
  | fail e => intro s c ev; simp [runProg]
  | record k v rest ih =>
      intro s c ev
      simp only [runProg]
      have h := ih (s.withMeta { s.meta with records := insertRecord s.meta.records k v })
        c (ev ++ [.stepRecord s.meta.key k v])
      simp [StepTree.size_withMeta, List.countP_append, List.countP_cons,
        List.countP_nil, Event.isComplete] at h ⊢
      omega
  | stepCall name body k ih1 ih2 =>
      intro s c ev
      simp only [runProg]
      have h1 := ih1 (newChild s.meta.key name c) (c + 1)
        (ev ++ [Event.stepStart (s.meta.key ++ "." ++ name)])
      cases ho : (runProg body (newChild s.meta.key name c) (c + 1)
          (ev ++ [Event.stepStart (s.meta.key ++ "." ++ name)])).result with
      | ok v =>
          have h2 := ih2 v
            ((s.addChild ((runProg body (newChild s.meta.key name c) (c + 1)
              (ev ++ [Event.stepStart (s.meta.key ++ "." ++ name)])).tree.withMeta
              { (runProg body (newChild s.meta.key name c) (c + 1)
                  (ev ++ [Event.stepStart (s.meta.key ++ "." ++ name)])).tree.meta with
                result := some v
                time := closeTime (runProg body (newChild s.meta.key name c) (c + 1)
                  (ev ++ [Event.stepStart (s.meta.key ++ "." ++ name)])).tree.meta.time
                  (runProg body (newChild s.meta.key name c) (c + 1)
                    (ev ++ [Event.stepStart (s.meta.key ++ "." ++ name)])).clock })))
            ((runProg body (newChild s.meta.key name c) (c + 1)
                (ev ++ [Event.stepStart (s.meta.key ++ "." ++ name)])).clock + 1)
            ((runProg body (newChild s.meta.key name c) (c + 1)
                (ev ++ [Event.stepStart (s.meta.key ++ "." ++ name)])).events ++
              [Event.stepSuccess (s.meta.key ++ "." ++ name) v,
                Event.stepComplete (s.meta.key ++ "." ++ name)])
          simp [StepTree.size_addChild, StepTree.size_withMeta,
            StepTree.size_newChild, List.countP_append, List.countP_cons,
            List.countP_nil, Event.isComplete] at h1 h2 ⊢
          omega
      | error e =>
          simp [StepTree.size_addChild, StepTree.size_withMeta,
            StepTree.size_newChild, List.countP_append, List.countP_cons,
            List.countP_nil, Event.isComplete] at h1 ⊢
          omega

theorem childKeysOkList_append (pk : String) (xs ys : List StepTree) :
    childKeysOkList pk (xs ++ ys)
      = (childKeysOkList pk xs && childKeysOkList pk ys) := by
  induction xs with
  | nil => simp [childKeysOkList]
  | cons c cs ih =>
      simp only [List.cons_append, childKeysOkList, List.append_eq, ih,
        Bool.and_assoc]

theorem childKeysOk_withMeta (t : StepTree) (m : StepMeta)
    (h : m.key = t.meta.key) :
    childKeysOk (t.withMeta m) = childKeysOk t := by
  cases t with
  | node m0 cs =>
      simp only [StepTree.withMeta, childKeysOk]
      rw [show m.key = m0.key from h]

/-- A run never breaks the key invariant: the children created by
`step(name, fn)` calls are keyed `parent.key ++ "." ++ name` by
construction, recursively. -/
theorem runProg_keys (p : Prog) :
    ∀ (s : StepTree) (c : Nat) (ev : List Event),
      childKeysOk (runProg p s c ev).tree = childKeysOk s := by
  induction p with
  | ret v => intro s c ev; simp [runProg]
  | retSelf => intro s c ev; simp [runProg]
  | fail e => intro s c ev; simp [runProg]
  | record k v rest ih =>
      intro s c ev
      simp only [runProg]
      rw [ih, childKeysOk_withMeta]
      rfl
  | stepCall name body k ih1 ih2 =>
      intro s c ev
      simp only [runProg]
      have hmeta := runProg_meta_inv body (newChild s.meta.key name c) (c + 1)
        (ev ++ [Event.stepStart (s.meta.key ++ "." ++ name)])
      have hkeys := ih1 (newChild s.meta.key name c) (c + 1)
        (ev ++ [Event.stepStart (s.meta.key ++ "." ++ name)])
      cases ho : (runProg body (newChild s.meta.key name c) (c + 1)
          (ev ++ [Event.stepStart (s.meta.key ++ "." ++ name)])).result with
      | ok v =>
          rw [ih2]
          cases s with
          | node m cs =>
              simp only [StepTree.addChild, childKeysOk, childKeysOkList_append,
                childKeysOkList, StepTree.meta_withMeta]
              rw [childKeysOk_withMeta _ _ (by rfl)]
              rw [hkeys]
              simp only [hmeta.1, hmeta.2.1]
              simp [newChild, childKeysOk, childKeysOkList, StepTree.meta]
      | error e =>
          cases s with
          | node m cs =>
              simp only [StepTree.addChild, childKeysOk, childKeysOkList_append,
                childKeysOkList, StepTree.meta_withMeta]
              rw [childKeysOk_withMeta _ _ (by rfl)]
              rw [hkeys]
              simp only [hmeta.1, hmeta.2.1]
              simp [newChild, childKeysOk, childKeysOkList, StepTree.meta]

theorem trackInner_meta (s : StepTree) (fn : Prog) (clock : Nat) :
    (Step.trackInner s fn clock).tree.meta.name = s.meta.name ∧
    (Step.trackInner s fn clock).tree.meta.key = s.meta.key ∧
    (Step.trackInner s fn clock).tree.meta.time
      = { s.meta.time with startTs := some clock } ∧
    (Step.trackInner s fn clock).tree.meta.result = s.meta.result ∧
    (Step.trackInner s fn clock).tree.meta.error = s.meta.error := by
  have h := runProg_meta_inv fn
    (s.withMeta { s.meta with time := { s.meta.time with startTs := some clock } })
    (clock + 1) [.stepStart s.meta.key]
  simp only [Step.trackInner]
  simpa using h

theorem track_keys (s : StepTree) (fn : Prog) (clock : Nat) :
    childKeysOk (Step.track s fn clock).tree = childKeysOk s := by
  simp only [Step.track, Step.trackInner]
  cases hr : (runProg fn
      (s.withMeta { s.meta with time := { s.meta.time with startTs := some clock } })
      (clock + 1) [Event.stepStart s.meta.key]).result with
  | ok v =>
      rw [childKeysOk_withMeta _ _ (by rfl), runProg_keys,
        childKeysOk_withMeta _ _ (by rfl)]
  | error e =>
      rw [childKeysOk_withMeta _ _ (by rfl), runProg_keys,
        childKeysOk_withMeta _ _ (by rfl)]

theorem track_counts (s : StepTree) (fn : Prog) (clock : Nat) :
    (Step.track s fn clock).events.countP Event.isStart + s.size
        = 1 + (Step.track s fn clock).tree.size ∧
    (Step.track s fn clock).events.countP Event.isComplete + s.size
        = 1 + (Step.track s fn clock).tree.size := by
  have hs := runProg_count_start fn
    (s.withMeta { s.meta with time := { s.meta.time with startTs := some clock } })
    (clock + 1) [.stepStart s.meta.key]
  have hc := runProg_count_complete fn
    (s.withMeta { s.meta with time := { s.meta.time with startTs := some clock } })
    (clock + 1) [.stepStart s.meta.key]
  simp only [Step.track, Step.trackInner]
  cases hr : (runProg fn
      (s.withMeta { s.meta with time := { s.meta.time with startTs := some clock } })
      (clock + 1) [Event.stepStart s.meta.key]).result with
  | ok v =>
      simp [List.countP_append, List.countP_cons, Event.isStart,
        Event.isComplete] at hs hc ⊢
      omega
  | error e =>
      simp [List.countP_append, List.countP_cons, Event.isStart,
        Event.isComplete] at hs hc ⊢
      omega

theorem track_size (s : StepTree) (fn : Prog) (clock : Nat) :
    (Step.track s fn clock).tree.size = (Step.trackInner s fn clock).tree.size := by
  simp only [Step.track]
  cases hr : (Step.trackInner s fn clock).result with
  | ok v => simp
  | error e => simp

theorem eventCalls_count_initStep (rid : String) (metas : List StepMeta) :
    ∀ evs : List Event,
      (eventCalls rid metas evs).countP TransportCall.isInitiateStep
        = evs.countP Event.isStart := by
  intro evs
  induction evs with
  | nil => simp [eventCalls]
  | cons e rest ih =>
      cases e <;> simp [eventCalls, Event.isStart, TransportCall.isInitiateStep,
        TransportCall.isFinishStep, ih]

theorem eventCalls_count_finishStep (rid : String) (metas : List StepMeta) :
    ∀ evs : List Event,
      (eventCalls rid metas evs).countP TransportCall.isFinishStep
        = evs.countP Event.isComplete := by
  intro evs
  induction evs with
  | nil => simp [eventCalls]
  | cons e rest ih =>
      cases e <;> simp [eventCalls, Event.isComplete, TransportCall.isInitiateStep,
        TransportCall.isFinishStep, ih]

theorem eventCalls_count_runs (rid : String) (metas : List StepMeta) :
    ∀ evs : List Event,
      (eventCalls rid metas evs).countP TransportCall.isInitiateRun = 0 ∧
      (eventCalls rid metas evs).countP TransportCall.isFinishRun = 0 := by
  intro evs
  induction evs with
  | nil => simp [eventCalls]
  | cons e rest ih =>
      cases e <;> simp [eventCalls, TransportCall.isInitiateRun,
        TransportCall.isFinishRun, ih]

@[simp]
theorem StepTree.meta_newChild (pk n : String) (c : Nat) :
    (newChild pk n c).meta
      = { name := n, key := pk ++ "." ++ n, time := { startTs := some c } } := by
  rfl

theorem StepTree.size_eq (t : StepTree) :
    t.size = 1 + StepTree.sizeList t.children := by
  cases t; rfl

theorem StepTree.size_mkRoot (name : String) (okey : Option String) :
    (Step.mkRoot name okey).size = 1 := by
  rfl

theorem track_meta (s : StepTree) (fn : Prog) (clock : Nat) :
    (Step.track s fn clock).tree.meta.name = s.meta.name ∧
    (Step.track s fn clock).tree.meta.key = s.meta.key := by
  have h := trackInner_meta s fn clock
  simp only [Step.track]
  cases hr : (Step.trackInner s fn clock).result with
  | ok v => simp [h.1, h.2.1]
  | error e => simp [h.1, h.2.1]

/-- C1 (amended): for every step or pipeline `S` and every user function
`fn`, `await S.track(fn)` hands back the value returned by `fn` itself — not
`S` — re-raising `fn`'s error on failure; in both cases `S` is fully
populated afterwards: its result (on success) or its `{name, message}` error
(on failure) is stored, its timing is closed (`startTs`, `endTs`,
`timeUsageMs` all set), and all children created during the run are kept. -/
theorem C1_track_result (s : StepTree) (fn : Prog) (clock : Nat) :
    (Step.track s fn clock).result = (Step.trackInner s fn clock).result ∧
    (Step.track s fn clock).tree.meta.result
      = (match (Step.trackInner s fn clock).result with
         | .ok v => some v
         | .error _ => s.meta.result) ∧
    (Step.track s fn clock).tree.meta.error
      = (match (Step.trackInner s fn clock).result with
         | .ok _ => s.meta.error
         | .error e => some e) ∧
    (Step.track s fn clock).tree.meta.time
      = ⟨some clock, some (Step.trackInner s fn clock).clock,
          some ((Step.trackInner s fn clock).clock - clock)⟩ ∧
    (Step.track s fn clock).tree.children = (Step.trackInner s fn clock).tree.children := by
  have h := trackInner_meta s fn clock
  simp only [Step.track]
  cases hr : (Step.trackInner s fn clock).result with
  | ok v =>
      refine ⟨rfl, by simp, by simp [h.2.2.2.2], ?_, by simp⟩
      simp [closeTime, h.2.2.1]
  | error e =>
      refine ⟨rfl, by simp [h.2.2.2.1], by simp, ?_, by simp⟩
      simp [closeTime, h.2.2.1]

/-- C1 counterexample to the claim as stated: the spec's own scenario
(`test_track_steps`): the pipeline root `"test-pipeline"` tracks a function
that runs one sub-step and then returns the string `"final-result"`. `track`
hands back that string — a plain value, not the step object `self` (which a
user function would surface as `Value.vstepRef "test-pipeline"`, as
`Prog.retSelf` shows). -/
theorem C1_counterexample :
    (Step.track (Step.mkRoot "test-pipeline" none)
      (Prog.stepCall "step1" (.ret (.vstr "result1"))
        (fun _ => .ret (.vstr "final-result"))) 0).result
      = .ok (.vstr "final-result") ∧
    (Step.track (Step.mkRoot "test-pipeline" none)
      (Prog.stepCall "step1" (.ret (.vstr "result1"))
        (fun _ => .ret (.vstr "final-result"))) 0).result
      ≠ .ok (.vstepRef "test-pipeline") := by
  have h1 : (Step.track (Step.mkRoot "test-pipeline" none)
      (Prog.stepCall "step1" (.ret (.vstr "result1"))
        (fun _ => .ret (.vstr "final-result"))) 0).result
      = .ok (.vstr "final-result") := rfl
  refine ⟨h1, ?_⟩
  rw [h1]
  intro h
  exact Value.noConfusion (Except.ok.inj h)

/-- C2: when the function passed to `step(name, fn)` raises `e`, the child
stores `e` as its `{name, message}` error (result stays unset), its timing is
closed exactly as on success, `step-error` and then `step-complete` are
emitted with the child's key, `e` is re-raised to the caller, and the child
stays in the parent's children list. -/
theorem C2_step_error (name : String) (body : Prog) (k : Value → Prog)
    (s : StepTree) (clock : Nat) (ev : List Event) (e : ErrorInfo)
    (bt : StepTree) (c2 : Nat) (ev2 : List Event)
    (h : runProg body (newChild s.meta.key name clock) (clock + 1)
      (ev ++ [Event.stepStart (s.meta.key ++ "." ++ name)])
      = ⟨.error e, bt, c2, ev2⟩) :
    ∃ child,
      runProg (.stepCall name body k) s clock ev
        = ⟨.error e, s.addChild child, c2 + 1,
            ev2 ++ [.stepError (s.meta.key ++ "." ++ name) e,
              .stepComplete (s.meta.key ++ "." ++ name)]⟩ ∧
      child.meta.name = name ∧
      child.meta.key = s.meta.key ++ "." ++ name ∧
      child.meta.error = some e ∧
      child.meta.result = none ∧
      child.meta.time = ⟨some clock, some c2, some (c2 - clock)⟩ ∧
      child.children = bt.children := by
  have hm := runProg_meta_inv body (newChild s.meta.key name clock) (clock + 1)
    (ev ++ [Event.stepStart (s.meta.key ++ "." ++ name)])
  rw [h] at hm
  simp only [StepTree.meta_newChild] at hm
  refine ⟨bt.withMeta
    { bt.meta with error := some e, time := closeTime bt.meta.time c2 },
    ?_, ?_, ?_, ?_, ?_, ?_, ?_⟩
  · simp only [runProg, h]
  · simp [hm.1]
  · simp [hm.2.1]
  · simp
  · simp [hm.2.2.2.1]
  · simp [closeTime, hm.2.2.1]
  · simp

/-- C2 witness: the concrete failing sub-step of `test_run_handle_errors`:
a root `"test-step"` runs `step("inner-step", fn)` at tick 1 where `fn`
raises `test error`. -/
theorem C2_step_error_witness :
    ∃ child,
      runProg (.stepCall "inner-step" (.fail ⟨"Exception", "test error"⟩)
          (fun _ => .ret .vnull)) (Step.mkRoot "test-step" none) 1 []
        = ⟨.error ⟨"Exception", "test error"⟩,
            (Step.mkRoot "test-step" none).addChild child, 3,
            ([] ++ [Event.stepStart ("test-step" ++ "." ++ "inner-step")])
              ++ [.stepError ("test-step" ++ "." ++ "inner-step")
                    ⟨"Exception", "test error"⟩,
                  .stepComplete ("test-step" ++ "." ++ "inner-step")]⟩ ∧
      child.meta.error = some ⟨"Exception", "test error"⟩ ∧
      child.meta.time = ⟨some 1, some 2, some 1⟩ := by
  obtain ⟨child, h1, h2, h3, h4, h5, h6, h7⟩ :=
    C2_step_error "inner-step" (.fail ⟨"Exception", "test error"⟩)
      (fun _ => .ret .vnull) (Step.mkRoot "test-step" none) 1 []
      ⟨"Exception", "test error"⟩
      (newChild "test-step" "inner-step" 1) 2
      ([] ++ [Event.stepStart ("test-step" ++ "." ++ "inner-step")]) rfl
  exact ⟨child, h1, h4, h6⟩

/-- C3: `outputFlattened` is the pre-order traversal: element 0 is the step's
own meta, followed by each child's flattening in the insertion order of the
children list. -/
theorem C3_outputFlattened_preorder (t : StepTree) :
    t.outputFlattened
      = t.meta :: (t.children.map StepTree.outputFlattened).flatten := by
  cases t with
  | node m cs =>
      simp [StepTree.outputFlattened, StepTree.flattenList_eq, StepTree.meta,
        StepTree.children]

/-- C4: in any tree produced by a run, every step's key is its parent's key,
a dot, and the step's local key (children created by `step(name, fn)` have
local key `name`); the root's key is its local key, which defaults to its
name but may be overridden at construction. -/
theorem C4_key_invariant (name : String) (okey : Option String) (fn : Prog)
    (clock : Nat) :
    childKeysOk (Step.track (Step.mkRoot name okey) fn clock).tree = true ∧
    (Step.track (Step.mkRoot name okey) fn clock).tree.meta.key
      = okey.getD name ∧
    (Step.track (Step.mkRoot name okey) fn clock).tree.meta.name = name := by
  refine ⟨?_, ?_, ?_⟩
  · rw [track_keys]; rfl
  · rw [(track_meta (Step.mkRoot name okey) fn clock).2]; rfl
  · rw [(track_meta (Step.mkRoot name okey) fn clock).1]; rfl

/-- C5: with `autoSave = "finish"` and a transport, a successful `track` run
performs no `initiate_run`, `initiate_step` or `finish_step` calls and
exactly one `finish_run`, with status `"completed"` and a pipeline meta whose
`steps` list is the full flattened tree: the pipeline itself plus its N
child steps, so length N + 1. -/
theorem C5_finish_mode (p : Pipeline) (fn : Prog) (v : Value)
    (hmode : p.autoSave = AutoSave.finish)
    (hok : (Pipeline.trackRun p fn).result = .ok v) :
    (Pipeline.trackRun p fn).calls
      = [.finishRun (p.outputPipelineMeta (Pipeline.trackRun p fn).tree)
          "completed"] ∧
    (Pipeline.trackRun p fn).calls.countP TransportCall.isInitiateRun = 0 ∧
    (Pipeline.trackRun p fn).calls.countP TransportCall.isInitiateStep = 0 ∧
    (Pipeline.trackRun p fn).calls.countP TransportCall.isFinishStep = 0 ∧
    (Pipeline.trackRun p fn).calls.countP TransportCall.isFinishRun = 1 ∧
    (p.outputPipelineMeta (Pipeline.trackRun p fn).tree).steps.length
      = 1 + StepTree.sizeList (Pipeline.trackRun p fn).tree.children := by
  have hok' : (Step.track (Step.mkRoot p.name none) fn 0).result = .ok v := hok
  refine ⟨?_, ?_, ?_, ?_, ?_, ?_⟩ <;>
    simp [Pipeline.trackRun, hmode, hok', Pipeline.outputPipelineMeta,
      TransportCall.isInitiateRun, TransportCall.isInitiateStep,
      TransportCall.isFinishStep, TransportCall.isFinishRun,
      StepTree.length_outputFlattened, StepTree.size_eq]

/-- C5 witness: the concrete run of `test_auto_save_finish`: a finish-mode
pipeline tracks two child steps and returns `"final-result"`. -/
theorem C5_finish_mode_witness :
    (Pipeline.trackRun ⟨"test-pipeline", "rid", .finish, some 0⟩
        (Prog.stepCall "step1" (.ret (.vstr "result1")) (fun _ =>
          Prog.stepCall "step2" (.ret (.vstr "result2")) (fun _ =>
            .ret (.vstr "final-result"))))).calls.countP
        TransportCall.isFinishRun = 1 ∧
    (Pipeline.trackRun ⟨"test-pipeline", "rid", .finish, some 0⟩
        (Prog.stepCall "step1" (.ret (.vstr "result1")) (fun _ =>
          Prog.stepCall "step2" (.ret (.vstr "result2")) (fun _ =>
            .ret (.vstr "final-result"))))).calls.countP
        TransportCall.isInitiateStep = 0 ∧
    (Pipeline.outputPipelineMeta ⟨"test-pipeline", "rid", .finish, some 0⟩
        (Pipeline.trackRun ⟨"test-pipeline", "rid", .finish, some 0⟩
          (Prog.stepCall "step1" (.ret (.vstr "result1")) (fun _ =>
            Prog.stepCall "step2" (.ret (.vstr "result2")) (fun _ =>
              .ret (.vstr "final-result"))))).tree).steps.length
      = 1 + StepTree.sizeList
          (Pipeline.trackRun ⟨"test-pipeline", "rid", .finish, some 0⟩
            (Prog.stepCall "step1" (.ret (.vstr "result1")) (fun _ =>
              Prog.stepCall "step2" (.ret (.vstr "result2")) (fun _ =>
                .ret (.vstr "final-result"))))).tree.children := by
  have h := C5_finish_mode ⟨"test-pipeline", "rid", .finish, some 0⟩
    (Prog.stepCall "step1" (.ret (.vstr "result1")) (fun _ =>
      Prog.stepCall "step2" (.ret (.vstr "result2")) (fun _ =>
        .ret (.vstr "final-result"))))
    (.vstr "final-result") rfl rfl
  exact ⟨h.2.2.2.2.1, h.2.2.1, h.2.2.2.2.2⟩

/-- C8: `outputPipelineMeta()` extends the pipeline's own `StepMeta` with
`logVersion = 1`, the pipeline's run id, and `steps = outputFlattened()`;
and the `PipelineMeta` type consists of `StepMeta` plus exactly the fields
`{logVersion, runId, steps}`. -/
theorem C8_outputPipelineMeta (p : Pipeline) (t : StepTree) (pm : PipelineMeta) :
    (p.outputPipelineMeta t).logVersion = 1 ∧
    (p.outputPipelineMeta t).runId = p.runId ∧
    (p.outputPipelineMeta t).steps = t.outputFlattened ∧
    (p.outputPipelineMeta t).toStepMeta = t.meta ∧
    pm = { toStepMeta := pm.toStepMeta, logVersion := pm.logVersion,
           runId := pm.runId, steps := pm.steps } := by
  exact ⟨rfl, rfl, rfl, rfl, rfl⟩

/-- C9: constructing a Pipeline with `autoSave ≠ off` and no transport fails
with the validation error before any step tree exists; with a transport
supplied, construction succeeds and retains exactly the given auto-save mode
and transport object. -/
theorem C9_create_validation (name : String) (opts : PipelineOptions)
    (genId : String) :
    (opts.autoSave ≠ AutoSave.off → opts.transport = none →
      Pipeline.create name opts genId
        = .error "Transport must be provided when auto_save is enabled") ∧
    (∀ tr : Nat, opts.transport = some tr →
      Pipeline.create name opts genId
        = .ok { name := name, runId := opts.runId.getD genId,
                autoSave := opts.autoSave, transport := some tr }) := by
  constructor
  · intro h1 h2
    simp [Pipeline.create, h1, h2]
  · intro tr h
    simp [Pipeline.create, h]

/-- C9 witness: `test_auto_save_without_transport` /
`test_auto_save_with_transport` concretely: real_time mode without transport
is rejected, with a transport it succeeds and keeps both. -/
theorem C9_create_validation_witness :
    Pipeline.create "test-pipeline" { autoSave := .realTime } "uuid-1"
      = .error "Transport must be provided when auto_save is enabled" ∧
    Pipeline.create "test-pipeline"
        { autoSave := .realTime, transport := some 7 } "uuid-1"
      = .ok { name := "test-pipeline", runId := "uuid-1",
              autoSave := .realTime, transport := some 7 } := by
  exact ⟨(C9_create_validation "test-pipeline" { autoSave := .realTime }
      "uuid-1").1 (by decide) rfl,
    (C9_create_validation "test-pipeline"
      { autoSave := .realTime, transport := some 7 } "uuid-1").2 7 rfl⟩

/-- C10: in `real_time` mode the pipeline root itself is reported as a step
in addition to the run-level calls: a successful `track` run with N child
steps performs exactly N + 1 `initiate_step` and N + 1 `finish_step` calls
(the pipeline's own step-start/step-complete plus one per child), exactly
one `initiate_run`, and exactly one `finish_run`, with status
`"completed"`. -/
theorem C10_real_time_counts (p : Pipeline) (fn : Prog) (v : Value)
    (hmode : p.autoSave = AutoSave.realTime)
    (hok : (Pipeline.trackRun p fn).result = .ok v) :
    (Pipeline.trackRun p fn).calls.countP TransportCall.isInitiateStep
      = 1 + StepTree.sizeList (Pipeline.trackRun p fn).tree.children ∧
    (Pipeline.trackRun p fn).calls.countP TransportCall.isFinishStep
      = 1 + StepTree.sizeList (Pipeline.trackRun p fn).tree.children ∧
    (Pipeline.trackRun p fn).calls.countP TransportCall.isInitiateRun = 1 ∧
    (Pipeline.trackRun p fn).calls.countP TransportCall.isFinishRun = 1 ∧
    TransportCall.finishRun
        (p.outputPipelineMeta (Pipeline.trackRun p fn).tree) "completed"
      ∈ (Pipeline.trackRun p fn).calls := by
  have hok' : (Step.track (Step.mkRoot p.name none) fn 0).result = .ok v := hok
  have hsize := StepTree.size_eq (Step.track (Step.mkRoot p.name none) fn 0).tree
  have hstart : (Step.track (Step.mkRoot p.name none) fn 0).events.countP
        Event.isStart
      = 1 + StepTree.sizeList
          (Step.track (Step.mkRoot p.name none) fn 0).tree.children := by
    have h1 := (track_counts (Step.mkRoot p.name none) fn 0).1
    rw [StepTree.size_mkRoot] at h1
    omega
  have hcomp : (Step.track (Step.mkRoot p.name none) fn 0).events.countP
        Event.isComplete
      = 1 + StepTree.sizeList
          (Step.track (Step.mkRoot p.name none) fn 0).tree.children := by
    have h1 := (track_counts (Step.mkRoot p.name none) fn 0).2
    rw [StepTree.size_mkRoot] at h1
    omega
  refine ⟨?_, ?_, ?_, ?_, ?_⟩ <;>
    simp [Pipeline.trackRun, hmode, hok', TransportCall.isInitiateRun,
      TransportCall.isInitiateStep, TransportCall.isFinishStep,
      TransportCall.isFinishRun, eventCalls_count_runs,
      eventCalls_count_initStep, eventCalls_count_finishStep, hstart, hcomp]

/-- C10 witness: the concrete run of `test_auto_save_real_time`: a real_time
pipeline tracks one child step; `initiate_step` and `finish_step` are each
called twice (pipeline + step1), `initiate_run` and `finish_run` once. -/
theorem C10_real_time_counts_witness :
    (Pipeline.trackRun ⟨"test-pipeline", "rid", .realTime, some 0⟩
        (Prog.stepCall "step1" (.ret (.vstr "result1")) (fun _ =>
          .ret (.vstr "final-result")))).calls.countP
        TransportCall.isInitiateStep = 2 ∧
    (Pipeline.trackRun ⟨"test-pipeline", "rid", .realTime, some 0⟩
        (Prog.stepCall "step1" (.ret (.vstr "result1")) (fun _ =>
          .ret (.vstr "final-result")))).calls.countP
        TransportCall.isFinishStep = 2 ∧
    (Pipeline.trackRun ⟨"test-pipeline", "rid", .realTime, some 0⟩
        (Prog.stepCall "step1" (.ret (.vstr "result1")) (fun _ =>
          .ret (.vstr "final-result")))).calls.countP
        TransportCall.isInitiateRun = 1 ∧
    (Pipeline.trackRun ⟨"test-pipeline", "rid", .realTime, some 0⟩
        (Prog.stepCall "step1" (.ret (.vstr "result1")) (fun _ =>
          .ret (.vstr "final-result")))).calls.countP
        TransportCall.isFinishRun = 1 := by
  have h := C10_real_time_counts ⟨"test-pipeline", "rid", .realTime, some 0⟩
    (Prog.stepCall "step1" (.ret (.vstr "result1")) (fun _ =>
      .ret (.vstr "final-result")))
    (.vstr "final-result") rfl rfl
  have hch : StepTree.sizeList
      (Pipeline.trackRun ⟨"test-pipeline", "rid", .realTime, some 0⟩
        (Prog.stepCall "step1" (.ret (.vstr "result1")) (fun _ =>
          .ret (.vstr "final-result")))).tree.children = 1 := rfl
  rw [hch] at h
  exact ⟨h.1, h.2.1, h.2.2.1, h.2.2.2.1⟩

/-- C6: batched HttpTransport with `maxBatchSize = 3`: each operation appends
exactly one event to the cache and no batch POST happens while the cache
holds fewer than 3 events; appending the third event (`initiate_run`,
`initiate_step`, `finish_step`) triggers exactly one POST to
`api/ingestion/batch` whose body is the three events in cache-arrival order
— tags `("pipeline","start"), ("step","start"), ("step","finish")` — and the
cache is empty afterwards. -/
theorem C6_batched_flush_on_max_size (cfg : HttpTransportOptions)
    (meta : PipelineMeta) (rid : String) (sm : StepMeta)
    (hsize : cfg.maxBatchSize = 3) (hretry : 1 ≤ cfg.maxRetries) :
    (HttpTransport.initiateRun cfg ⟨[], [], []⟩ meta [200]).1.eventCache
      = [.pipelineStart meta] ∧
    (HttpTransport.initiateRun cfg ⟨[], [], []⟩ meta [200]).1.batchPosts = [] ∧
    (HttpTransport.initiateStep cfg
        (HttpTransport.initiateRun cfg ⟨[], [], []⟩ meta [200]).1
        rid sm [200]).1.eventCache
      = [.pipelineStart meta, .stepStart rid sm] ∧
    (HttpTransport.initiateStep cfg
        (HttpTransport.initiateRun cfg ⟨[], [], []⟩ meta [200]).1
        rid sm [200]).1.batchPosts = [] ∧
    (HttpTransport.finishStep cfg
        (HttpTransport.initiateStep cfg
          (HttpTransport.initiateRun cfg ⟨[], [], []⟩ meta [200]).1
          rid sm [200]).1
        rid sm [200]).1.eventCache = [] ∧
    (HttpTransport.finishStep cfg
        (HttpTransport.initiateStep cfg
          (HttpTransport.initiateRun cfg ⟨[], [], []⟩ meta [200]).1
          rid sm [200]).1
        rid sm [200]).1.batchPosts
      = [[.pipelineStart meta, .stepStart rid sm, .stepFinish rid sm]] ∧
    ((HttpTransport.finishStep cfg
        (HttpTransport.initiateStep cfg
          (HttpTransport.initiateRun cfg ⟨[], [], []⟩ meta [200]).1
          rid sm [200]).1
        rid sm [200]).1.batchPosts.map (fun b => b.map BatchEvent.tag))
      = [[("pipeline", "start"), ("step", "start"), ("step", "finish")]] := by
  rcases hmr : cfg.maxRetries with _ | fuel
  · omega
  · refine ⟨?_, ?_, ?_, ?_, ?_, ?_, ?_⟩ <;>
      simp [HttpTransport.initiateRun, HttpTransport.initiateStep,
        HttpTransport.finishStep, addEvent, flushEvents, flushLoop,
        BatchEvent.tag, hsize, hmr]

/-- C6 witness: the concrete transport of `test_batched_flush_on_max_size`
(`max_batch_size=3`, default `max_retries=3`) with the mock pipeline and
step metas. -/
theorem C6_batched_flush_on_max_size_witness :
    (HttpTransport.finishStep ⟨true, 3, 3⟩
        (HttpTransport.initiateStep ⟨true, 3, 3⟩
          (HttpTransport.initiateRun ⟨true, 3, 3⟩ ⟨[], [], []⟩
            mockPipelineMeta [200]).1
          "test-run-id" mockStepMeta [200]).1
        "test-run-id" mockStepMeta [200]).1.eventCache = [] ∧
    ((HttpTransport.finishStep ⟨true, 3, 3⟩
        (HttpTransport.initiateStep ⟨true, 3, 3⟩
          (HttpTransport.initiateRun ⟨true, 3, 3⟩ ⟨[], [], []⟩
            mockPipelineMeta [200]).1
          "test-run-id" mockStepMeta [200]).1
        "test-run-id" mockStepMeta [200]).1.batchPosts.map
        (fun b => b.map BatchEvent.tag))
      = [[("pipeline", "start"), ("step", "start"), ("step", "finish")]] := by
  have h := C6_batched_flush_on_max_size ⟨true, 3, 3⟩ mockPipelineMeta
    "test-run-id" mockStepMeta rfl (by decide)
  exact ⟨h.2.2.2.2.1, h.2.2.2.2.2.2⟩

/-- C7: batched HttpTransport with pending events: if the first batch POST
answers HTTP 500 and the retried POST answers 200, exactly two POSTs to
`api/ingestion/batch` happen with identical bodies (the failed batch is
retried unchanged), the cache is empty afterwards, nothing is dropped, and —
`flushEvents` being a total function into a plain state — the failure is
never raised to user code. -/
theorem C7_batched_retry (cfg : HttpTransportOptions)
    (st : HttpTransportState) (e0 : BatchEvent) (es : List BatchEvent)
    (hcache : st.eventCache = e0 :: es)
    (hretry : 2 ≤ cfg.maxRetries) :
    (flushEvents cfg st [500, 200]).1.batchPosts
      = st.batchPosts ++ [e0 :: es, e0 :: es] ∧
    (flushEvents cfg st [500, 200]).1.eventCache = [] ∧
    (flushEvents cfg st [500, 200]).1.droppedBatches = st.droppedBatches ∧
    (flushEvents cfg st [500, 200]).2 = [] := by
  rcases hmr : cfg.maxRetries with _ | _ | fuel
  · omega
  · omega
  · refine ⟨?_, ?_, ?_, ?_⟩ <;>
      simp [flushEvents, flushLoop, hcache, hmr]

/-- C7 witness: the concrete retry of `test_batched_retry_logic`: one cached
`pipeline start` event, first POST 500, second 200, default
`max_retries=3`. -/
theorem C7_batched_retry_witness :
    (flushEvents ⟨true, 50, 3⟩
        ⟨[.pipelineStart mockPipelineMeta], [], []⟩ [500, 200]).1.batchPosts
      = [] ++ [[.pipelineStart mockPipelineMeta],
          [.pipelineStart mockPipelineMeta]] ∧
    (flushEvents ⟨true, 50, 3⟩
        ⟨[.pipelineStart mockPipelineMeta], [], []⟩ [500, 200]).1.eventCache
      = [] := by
  have h := C7_batched_retry ⟨true, 50, 3⟩
    ⟨[.pipelineStart mockPipelineMeta], [], []⟩
    (.pipelineStart mockPipelineMeta) [] rfl (by decide)
  exact ⟨h.1, h.2.1⟩
